import Mathlib

/-!
Shallow embedding of the `pdfgen` document pipeline
(`src/pdfgen/pdf/objects.py`, `src/pdfgen/yaml.py`, `src/pdfgen/renderer.py`)
together with theorems settling the claims about it.

Conventions of the embedding:
* YAML trees (the result of `yaml.safe_load`) are modelled by the inductive
  `Yaml`; Python `dict` values are association lists (unique keys in practice,
  stated as a hypothesis where it matters).
* Python functions that log via `logging.*` are modelled as returning the list
  of emitted `LogEvent`s alongside their result.
* Python code that can raise (failed `assert`, `AttributeError` on a non-dict,
  a `dacite` type error) is modelled with `Except String`.
* Machine-level details that the claims do not touch (reportlab's float page
  sizes) are modelled with exact rationals; Python integers are `Int` and
  Python `//` is `Int.fdiv` (floor division).
-/

namespace Pdfgen

/-- A decoded YAML tree (the output of `yaml.safe_load`). -/
inductive Yaml where
  | null : Yaml
  | bool : Bool → Yaml
  | int : Int → Yaml
  | str : String → Yaml
  | list : List Yaml → Yaml
  | dict : List (String × Yaml) → Yaml

/-- First binding of a key in an association list (Python dict lookup,
including a `null` value stored under the key). -/
def lookupKey (kvs : List (String × Yaml)) (k : String) : Option Yaml :=
  match kvs with
  | [] => none
  | (k2, v) :: rest => if k2 = k then some v else lookupKey rest k

/-- Python `d.get(k)`: `None` both when the key is absent and when its stored
value is YAML `null` (both decode to Python `None`). -/
def getOpt (kvs : List (String × Yaml)) (k : String) : Option Yaml :=
  match lookupKey kvs k with
  | some Yaml.null => none
  | o => o

/-- Python `k in d` / `d[k]` raising `KeyError`: presence of the key itself,
a stored `null` still counts as present. -/
def hasKey (kvs : List (String × Yaml)) (k : String) : Bool :=
  (lookupKey kvs k).isSome

/-- Severity of a diagnostic event (the `logging` level used by the code). -/
inductive Severity where
  | info
  | warning
  | error
  deriving DecidableEq

/-- A structured diagnostic event: severity, message, optional offending
value (the argument interpolated into the log format string). -/
structure LogEvent where
  severity : Severity
  message : String
  offending : Option Yaml := none

/-- The warning logged by `PDF.from_yaml` for a content entry that reaches the
end of the dispatch chain: `logging.warning("Invalid yaml element: %s", d)`. -/
def invalidElementWarning (d : Yaml) : LogEvent :=
  { severity := Severity.warning, message := "Invalid yaml element", offending := some d }

/-- The event logged when the root key is missing:
`logging.error("The root element should be pdf in the spec file")`. -/
def rootMissingError : LogEvent :=
  { severity := Severity.error, message := "The root element should be pdf in the spec file" }

/-- The weak parent back-reference of a renderable element, reduced to the tag
the code actually branches on (`isinstance(self.parent, PDF)`); `unset` is
Python `None`, `table` a `Table` parent set during table deserialization. -/
inductive Parent where
  | unset
  | pdfDoc
  | table
  deriving DecidableEq

/-- `Margin` dataclass: four offsets, each defaulting to 16. -/
structure Margin where
  left : Int := 16
  right : Int := 16
  top : Int := 16
  bottom : Int := 16
  deriving DecidableEq

/-- `Sheet` dataclass: page configuration. -/
structure Sheet where
  margin : Margin := {}
  size : String := "A4"
  font : String := "Times-Roman"
  deriving DecidableEq

/-- One reportlab point per millimetre factor: reportlab has `mm = 72/25.4`
points. The reportlab constants are floats; the claims only concern which
fixed pair is returned, so the pairs are modelled as exact rationals. -/
def mmPts : ℚ := 360 / 127

/-- reportlab `A4` page size in points, `(210*mm, 297*mm)`. -/
def a4Pair : ℚ × ℚ := (210 * mmPts, 297 * mmPts)

/-- reportlab `A3` page size in points, `(297*mm, 420*mm)`. -/
def a3Pair : ℚ × ℚ := (297 * mmPts, 420 * mmPts)

/-- reportlab `A2` page size in points, `(420*mm, 594*mm)`. -/
def a2Pair : ℚ × ℚ := (420 * mmPts, 594 * mmPts)

/-- The members of the `Sheet.Size` enum in declaration order, as
`(name, value)` pairs — the iteration order of `for element in Sheet.Size`. -/
def sheetSizeEnum : List (String × ℚ × ℚ) :=
  [("A4", a4Pair), ("A3", a3Pair), ("A2", a2Pair)]

/-- `Sheet.size_tuple`: iterate over the enum members comparing names to
`self.size`; return the first hit, else the `(-1, -1)` sentinel. -/
def Sheet.size_tuple (s : Sheet) : ℚ × ℚ :=
  match sheetSizeEnum.find? (fun e => e.1 == s.size) with
  | some e => e.2
  | none => (-1, -1)

/-- `Table.Cell` dataclass. `parent` is the attribute assigned dynamically by
`Table.from_yaml` (`cell.parent = result`); unset on a fresh cell. -/
structure Cell where
  text : String := ""
  background_color : String := "0xFFFFFF"
  parent : Parent := Parent.unset
  deriving DecidableEq

/-- One reportlab table style directive as built by `Table.generate`.
Colors are kept as strings (`HexColor(c)` keeps its hex string, named
reportlab colors keep their name). -/
inductive StyleArg where
  | fontName (font : String)
  | background (x1 y1 x2 y2 : Int) (color : String)
  | lineBelow (x1 y1 x2 y2 : Int) (width : ℚ) (color : String)
  | grid (x1 y1 x2 y2 : Int) (width : ℚ) (color : String)
  | box (x1 y1 x2 y2 : Int) (width : ℚ) (color : String)

/-- A reportlab flowable as produced by the `generate` methods. The data of
an `RL_Table` holds per slot either a cell text (`Sum.inl`) or a flowable
placed in the slot (`Sum.inr`, an embedded image). -/
inductive Flowable where
  | spacer (width height : Int)
  | rlParagraph (styleName : String) (alignment : Option Nat) (fontSize : Int)
      (fontName : String) (text : String)
  | rlImage (resource : String) (width height : Int) (hAlign : String)
  | rlPageBreak
  | rlTable (data : List (List (String ⊕ Flowable))) (style : List StyleArg)

/-- `True` exactly on reportlab `Spacer` items. -/
def Flowable.isSpacer : Flowable → Bool
  | Flowable.spacer _ _ => true
  | _ => false

/-- An occupant of a table row slot: a `Table.Cell`, or the flowable an
embedded image appended into the row (`img.generate(row)`). -/
abbrev RowItem := Cell ⊕ Flowable

/-- `Paragraph` dataclass (inherited `Renderable` fields included). -/
structure Paragraph where
  parent : Parent := Parent.unset
  space_before : Int := 4
  space_after : Int := 4
  alignment : String := "left"
  size : Int := 12
  text : String := ""

/-- `Table` dataclass (inherited `Renderable` fields included). -/
structure Table where
  parent : Parent := Parent.unset
  space_before : Int := 4
  space_after : Int := 4
  border : Bool := false
  header : Bool := false
  grid : Bool := false
  rows : List (List RowItem) := []

/-- `Image` dataclass. `width`/`height` default to `1*inch = 72` points. -/
structure Image where
  parent : Parent := Parent.unset
  space_before : Int := 4
  space_after : Int := 4
  resource : String := ""
  alignment : String := "left"
  width : Int := 72
  height : Int := 72

/-- `PageBreak` dataclass: only the inherited `Renderable` fields. -/
structure PageBreak where
  parent : Parent := Parent.unset
  space_before : Int := 4
  space_after : Int := 4

/-- The closed union of content element variants held in `PDF.content`. -/
inductive Element where
  | paragraph : Paragraph → Element
  | table : Table → Element
  | image : Image → Element
  | pageBreak : PageBreak → Element

/-- `PDF` dataclass: the document root. -/
structure PDF where
  sheet : Sheet := {}
  content : List Element := []

/-- The discriminator key of `Paragraph`. -/
def Paragraph.key : String := "paragraph"

/-- The discriminator key of `Table`. -/
def Table.key : String := "table"

/-- The discriminator key of `Image`. -/
def Image.key : String := "image"

/-- The discriminator key of `PageBreak`. -/
def PageBreak.key : String := "page_break"

/-- The weak parent tag of an element (`self.parent`). -/
def Element.parent : Element → Parent
  | Element.paragraph p => p.parent
  | Element.table t => t.parent
  | Element.image i => i.parent
  | Element.pageBreak b => b.parent

/-- The `space_before` field of an element. -/
def Element.space_before : Element → Int
  | Element.paragraph p => p.space_before
  | Element.table t => t.space_before
  | Element.image i => i.space_before
  | Element.pageBreak b => b.space_before

/-- The `space_after` field of an element. -/
def Element.space_after : Element → Int
  | Element.paragraph p => p.space_after
  | Element.table t => t.space_after
  | Element.image i => i.space_after
  | Element.pageBreak b => b.space_after

/-! ### Deserialization (`from_yaml` methods, `dacite.from_dict` field mapping) -/

/-- `dacite` coercion of a `str`-typed field value. -/
def expectStr : Yaml → Except String String
  | Yaml.str s => Except.ok s
  | _ => Except.error "WrongTypeError"

/-- `dacite` coercion of an `int`-typed field value. Python `bool` is a
subclass of `int`, so a YAML boolean passes the `isinstance` check too. -/
def expectInt : Yaml → Except String Int
  | Yaml.int n => Except.ok n
  | Yaml.bool b => Except.ok (if b then 1 else 0)
  | _ => Except.error "WrongTypeError"

/-- `dacite` coercion of a `bool`-typed field value. -/
def expectBool : Yaml → Except String Bool
  | Yaml.bool b => Except.ok b
  | _ => Except.error "WrongTypeError"

/-- One `dacite` field: use the value stored under `k` when the key is
present (a stored `null` is a wrong type for these non-Optional fields),
else the dataclass default. -/
def daciteField (kvs : List (String × Yaml)) (k : String)
    (coerce : Yaml → Except String α) (dflt : α) : Except String α :=
  match lookupKey kvs k with
  | some v => coerce v
  | none => Except.ok dflt

/-- `dacite` handling of the inherited `parent: PDFObject` field: absent
means the default `None`; data supplied for it cannot be coerced into the
abstract `PDFObject` class and fails. -/
def daciteParent (kvs : List (String × Yaml)) : Except String Parent :=
  match lookupKey kvs "parent" with
  | some _ => Except.error "WrongTypeError"
  | none => Except.ok Parent.unset

/-- `Margin` via `dacite`: four `int` fields, default 16. -/
def Margin.from_dict (y : Yaml) : Except String Margin :=
  match y with
  | Yaml.dict kvs => do
      let l ← daciteField kvs "left" expectInt 16
      let r ← daciteField kvs "right" expectInt 16
      let t ← daciteField kvs "top" expectInt 16
      let b ← daciteField kvs "bottom" expectInt 16
      Except.ok { left := l, right := r, top := t, bottom := b }
  | _ => Except.error "WrongTypeError"

/-- `Sheet.from_yaml`: `dacite.from_dict` over the `Sheet` dataclass
(nested `Margin`, string `size` and `font`). -/
def Sheet.from_yaml (y : Yaml) : Except String Sheet :=
  match y with
  | Yaml.dict kvs => do
      let m ← match lookupKey kvs "margin" with
        | some v => Margin.from_dict v
        | none => Except.ok ({} : Margin)
      let sz ← daciteField kvs "size" expectStr "A4"
      let f ← daciteField kvs "font" expectStr "Times-Roman"
      Except.ok { margin := m, size := sz, font := f }
  | _ => Except.error "WrongTypeError"

/-- `Paragraph.__post_init__`: `self.space_before = self.size // 3`
(Python floor division), overwriting whatever the constructor received. -/
def Paragraph.postInit (p : Paragraph) : Paragraph :=
  { p with space_before := Int.fdiv p.size 3 }

/-- Dataclass construction of a `Paragraph` (field assignment followed by
`__post_init__`). -/
def Paragraph.make (parent : Parent) (sb sa : Int) (alignment : String)
    (size : Int) (text : String) : Paragraph :=
  Paragraph.postInit
    { parent := parent, space_before := sb, space_after := sa,
      alignment := alignment, size := size, text := text }

/-- `Paragraph.from_yaml`: `dacite.from_dict` over the `Paragraph` dataclass
(inherited fields included); construction runs `__post_init__`. -/
def Paragraph.from_yaml (y : Yaml) : Except String Paragraph :=
  match y with
  | Yaml.dict kvs => do
      let par ← daciteParent kvs
      let sb ← daciteField kvs "space_before" expectInt 4
      let sa ← daciteField kvs "space_after" expectInt 4
      let al ← daciteField kvs "alignment" expectStr "left"
      let sz ← daciteField kvs "size" expectInt 12
      let tx ← daciteField kvs "text" expectStr ""
      Except.ok (Paragraph.make par sb sa al sz tx)
  | _ => Except.error "WrongTypeError"

/-- `Table.Cell.from_yaml`: `dacite.from_dict` over the `Cell` dataclass. -/
def Cell.from_yaml (y : Yaml) : Except String Cell :=
  match y with
  | Yaml.dict kvs => do
      let tx ← daciteField kvs "text" expectStr ""
      let bg ← daciteField kvs "background_color" expectStr "0xFFFFFF"
      Except.ok { text := tx, background_color := bg }
  | _ => Except.error "WrongTypeError"

/-- Python `str.upper()` on the alignment string. -/
def pyUpper (s : String) : String := String.mk (s.toList.map Char.toUpper)

/-- `Image.from_yaml`: `dacite.from_dict` over the `Image` dataclass. -/
def Image.from_yaml (y : Yaml) : Except String Image :=
  match y with
  | Yaml.dict kvs => do
      let par ← daciteParent kvs
      let sb ← daciteField kvs "space_before" expectInt 4
      let sa ← daciteField kvs "space_after" expectInt 4
      let res ← daciteField kvs "resource" expectStr ""
      let al ← daciteField kvs "alignment" expectStr "left"
      let w ← daciteField kvs "width" expectInt 72
      let h ← daciteField kvs "height" expectInt 72
      Except.ok { parent := par, space_before := sb, space_after := sa,
                  resource := res, alignment := al, width := w, height := h }
  | _ => Except.error "WrongTypeError"

/-- `Image.generate`: append `RL_Image(resource, width, height)` with
`hAlign = alignment.upper()` (the items appended, in order). -/
def Image.genItems (i : Image) : List Flowable :=
  [Flowable.rlImage i.resource i.width i.height (pyUpper i.alignment)]

/-- One slot of a table row (`for col in cols` body of `Table.from_yaml`):
a `cell` key yields a `Cell` with `parent` set to the table; an `image` key
yields the flowable `Image.generate` appends into the row; any other key is
silently dropped (no element, no warning). A non-dict slot fails the
`assert isinstance(col, dict)`. -/
def tableSlot (col : Yaml) : Except String (List RowItem) :=
  match col with
  | Yaml.dict kvs =>
      match getOpt kvs "cell" with
      | some resource => do
          let c ← Cell.from_yaml resource
          Except.ok [Sum.inl { c with parent := Parent.table }]
      | none =>
          match getOpt kvs "image" with
          | some resource =>
              match resource with
              | Yaml.dict _ => do
                  let img ← Image.from_yaml resource
                  Except.ok ((img.genItems.map Sum.inr : List RowItem))
              | _ => Except.error "AssertionError"
          | none => Except.ok []
  | _ => Except.error "AssertionError"

/-- The row loop of `Table.from_yaml`: each row must be a dict with a `row`
list; its slots are folded through `tableSlot` in order. -/
def tableRows (rowsY : List Yaml) : Except String (List (List RowItem)) :=
  match rowsY with
  | [] => Except.ok []
  | r :: rest =>
      match r with
      | Yaml.dict kvs =>
          match getOpt kvs "row" with
          | some (Yaml.list cols) => do
              let row ← cols.foldlM (fun acc col => do
                  let items ← tableSlot col
                  pure (acc ++ items)) ([] : List RowItem)
              let others ← tableRows rest
              Except.ok (row :: others)
          | _ => Except.error "AssertionError"
      | _ => Except.error "AssertionError"

/-- `Table.from_yaml`: `dacite.from_dict` for the flat fields (`rows` must be
a list when supplied), then `result.rows` is discarded and rebuilt from the
`rows` key (whose absence fails the `assert isinstance(rows, list)`). -/
def Table.from_yaml (y : Yaml) : Except String Table :=
  match y with
  | Yaml.dict kvs => do
      let par ← daciteParent kvs
      let sb ← daciteField kvs "space_before" expectInt 4
      let sa ← daciteField kvs "space_after" expectInt 4
      let bd ← daciteField kvs "border" expectBool false
      let hd ← daciteField kvs "header" expectBool false
      let gr ← daciteField kvs "grid" expectBool false
      -- dacite checks the declared `rows: List` type on the supplied value
      let _ ← match lookupKey kvs "rows" with
        | some (Yaml.list _) => Except.ok ()
        | some _ => Except.error "WrongTypeError"
        | none => Except.ok ()
      let rowsY ← match getOpt kvs "rows" with
        | some (Yaml.list rs) => Except.ok rs
        | _ => Except.error "AssertionError"
      let rws ← tableRows rowsY
      Except.ok { parent := par, space_before := sb, space_after := sa,
                  border := bd, header := hd, grid := gr, rows := rws }
  | _ => Except.error "WrongTypeError"

/-- `PageBreak.from_yaml`: ignores its argument, returns `cls()`. -/
def PageBreak.from_yaml (_ : Yaml) : Except String PageBreak :=
  Except.ok {}

/-- One iteration of the content loop of `PDF.from_yaml` on entry `d`:
dispatch on the discriminators in code order (`paragraph`, `table`, `image`
via `.get`, then `page_break` via `__getitem__`/`KeyError`). Recognized
`paragraph`/`table`/`image` entries get `parent` set to the document and
exit via `continue`; the `page_break` region does not `continue`, so the
trailing `logging.warning` also fires for it, and the appended `PageBreak()`
keeps its default unset parent. Returns the elements appended and the
events logged. -/
def contentStep (d : Yaml) : Except String (List Element × List LogEvent) :=
  match d with
  | Yaml.dict kvs =>
      match getOpt kvs Paragraph.key with
      | some v =>
          match Paragraph.from_yaml v with
          | Except.ok p => Except.ok ([Element.paragraph { p with parent := Parent.pdfDoc }], [])
          | Except.error e => Except.error e
      | none =>
      match getOpt kvs Table.key with
      | some v =>
          match Table.from_yaml v with
          | Except.ok t => Except.ok ([Element.table { t with parent := Parent.pdfDoc }], [])
          | Except.error e => Except.error e
      | none =>
      match getOpt kvs Image.key with
      | some v =>
          match Image.from_yaml v with
          | Except.ok i => Except.ok ([Element.image { i with parent := Parent.pdfDoc }], [])
          | Except.error e => Except.error e
      | none =>
          Except.ok ((if hasKey kvs PageBreak.key then [Element.pageBreak {}] else []),
                     [invalidElementWarning d])
  | _ => Except.error "AttributeError"

/-- The whole content loop: entries processed in order, appended elements and
logged events concatenated in order. -/
def processContent : List Yaml → Except String (List Element × List LogEvent)
  | [] => Except.ok ([], [])
  | d :: ds =>
      match contentStep d, processContent ds with
      | Except.ok o, Except.ok r => Except.ok (o.1 ++ r.1, o.2 ++ r.2)
      | Except.error e, _ => Except.error e
      | Except.ok _, Except.error e => Except.error e

/-- One iteration of the `for key, value in root.items()` loop of
`PDF.from_yaml`: `sheet` replaces the sheet, `content` must be a list and
extends the content (logging its warnings), anything else is silently
ignored. -/
def rootStep (acc : PDF) (evs : List LogEvent) (k : String) (v : Yaml) :
    Except String (PDF × List LogEvent) :=
  if k = "sheet" then
    match Sheet.from_yaml v with
    | Except.ok s => Except.ok ({ acc with sheet := s }, evs)
    | Except.error e => Except.error e
  else if k = "content" then
    match v with
    | Yaml.list entries =>
        match processContent entries with
        | Except.ok (els, ws) =>
            Except.ok ({ acc with content := acc.content ++ els }, evs ++ ws)
        | Except.error e => Except.error e
    | _ => Except.error "AssertionError"
  else Except.ok (acc, evs)

/-- The whole `for key, value in root.items()` loop of `PDF.from_yaml`. -/
def rootFold : List (String × Yaml) → PDF → List LogEvent →
    Except String (PDF × List LogEvent)
  | [], acc, evs => Except.ok (acc, evs)
  | (k, v) :: rest, acc, evs =>
      match rootStep acc evs k v with
      | Except.ok pr => rootFold rest pr.1 pr.2
      | Except.error e => Except.error e

/-- `PDF.from_yaml`: `yaml_like.get("pdf")` (fatal error event and `None`
when missing or null), `assert isinstance(root, dict)`, then the key loop.
Returns the optional document and the logged events. -/
def PDF.from_yaml (y : Yaml) : Except String (Option PDF × List LogEvent) :=
  match y with
  | Yaml.dict kvs =>
      match getOpt kvs "pdf" with
      | none => Except.ok (none, [rootMissingError])
      | some (Yaml.dict rkvs) =>
          match rootFold rkvs {} [] with
          | Except.ok (p, evs) => Except.ok (some p, evs)
          | Except.error e => Except.error e
      | some _ => Except.error "AssertionError"
  | _ => Except.error "AttributeError"

/-! ### Rendering (`generate` methods, `Renderable.render`, `PDF.render`,
and the flow construction of `renderer.render`) -/

/-- The process-wide class variables `Paragraph.font` and `Table.font`
(mutated by `PDF.render` from the sheet font), threaded explicitly. -/
structure FontState where
  paragraphFont : String := "Times-Roman"
  tableFont : String := "Times-Roman"

/-- `Paragraph.rl_alignment`: reportlab constants `TA_LEFT = 0`,
`TA_CENTER = 1`, `TA_RIGHT = 2`; falls off the end (Python `None`) for any
other alignment string. -/
def rlAlignment (a : String) : Option Nat :=
  if a = "left" then some 0
  else if a = "center" then some 1
  else if a = "right" then some 2
  else none

/-- `Paragraph.generate`: one `RL_Paragraph` with a style built from the
alignment, the size and the class-level font. -/
def Paragraph.genItems (fs : FontState) (p : Paragraph) : List Flowable :=
  [Flowable.rlParagraph p.alignment (rlAlignment p.alignment) p.size fs.paragraphFont p.text]

/-- The `table_data` row built by `Table.generate`: cell text for `Cell`
occupants, the occupant itself otherwise. -/
def tableDataRow (row : List RowItem) : List (String ⊕ Flowable) :=
  row.map (fun it =>
    match it with
    | Sum.inl c => Sum.inl c.text
    | Sum.inr f => Sum.inr f)

/-- The `background_colors` row built by `Table.generate`: only `Cell`
occupants contribute (in order). -/
def tableBgRow (row : List RowItem) : List String :=
  row.filterMap (fun it =>
    match it with
    | Sum.inl c => some c.background_color
    | Sum.inr _ => none)

/-- The per-cell `BACKGROUND` style args: one per non-sentinel color, at the
enumerated `(j, i)` position within `background_colors`. -/
def tableBgArgs (bgs : List (List String)) : List StyleArg :=
  (bgs.enum.map (fun pr =>
    pr.2.enum.filterMap (fun pc =>
      if pc.2 ≠ "0xFFFFFF"
      then some (StyleArg.background pc.1 pr.1 pc.1 pr.1 pc.2)
      else none))).flatten

/-- `Table.generate`: one `RL_Table` holding the table data and style args
(font, per-cell backgrounds, optional header underline and fill, optional
grid, optional box). -/
def Table.genItems (fs : FontState) (t : Table) : List Flowable :=
  [Flowable.rlTable (t.rows.map tableDataRow)
    ([StyleArg.fontName fs.tableFont]
      ++ tableBgArgs (t.rows.map tableBgRow)
      ++ (if t.header
          then [StyleArg.lineBelow 0 0 (-1) 0 1 "black",
                StyleArg.background 0 0 (-1) 0 "lightgrey"]
          else [])
      ++ (if t.grid then [StyleArg.grid 0 0 (-1) (-1) (1/4) "grey"] else [])
      ++ (if t.border then [StyleArg.box 0 0 (-1) (-1) (1/2) "black"] else []))]

/-- `PageBreak.generate`: one `RL_PageBreak`. -/
def PageBreak.genItems : List Flowable := [Flowable.rlPageBreak]

/-- The items a content element appends by `generate` (each source
`generate` appends exactly once to the flowable list). -/
def Element.genItems (fs : FontState) : Element → List Flowable
  | Element.paragraph p => p.genItems fs
  | Element.table t => t.genItems fs
  | Element.image i => i.genItems
  | Element.pageBreak _ => PageBreak.genItems

/-- `generate(flowable_list)` as list transformation: the element appends
its items to the caller-supplied list. -/
def Element.generate (fs : FontState) (e : Element) (flowable_list : List Flowable) :
    List Flowable :=
  flowable_list ++ Element.genItems fs e

/-- `Renderable.render(flowable_list)`: when `isinstance(self.parent, PDF)`,
append `Spacer(0, space_before)`, then `generate`, then
`Spacer(0, space_after)`; otherwise `generate` alone. -/
def Renderable.render (fs : FontState) (e : Element) (flowable_list : List Flowable) :
    List Flowable :=
  if e.parent = Parent.pdfDoc then
    let l1 := flowable_list ++ [Flowable.spacer 0 e.space_before]
    let l2 := Element.generate fs e l1
    l2 ++ [Flowable.spacer 0 e.space_after]
  else
    Element.generate fs e flowable_list

/-- `PDF.render`: assign `Paragraph.font = Table.font = sheet.font`, then
fold `element.render(content)` over the content in order. -/
def PDF.render (pdf : PDF) : List Flowable :=
  let fs : FontState := { paragraphFont := pdf.sheet.font, tableFont := pdf.sheet.font }
  pdf.content.foldl (fun acc e => Renderable.render fs e acc) []

/-- The flow construction of `renderer.render(file_name, pdf)`: starts from
an empty list and calls `element.generate(content)` — not `render` — for
each content element in order, under whatever fonts are currently in the
process-wide class variables (it never assigns them). -/
def rendererBuildFlow (fs : FontState) (pdf : PDF) : List Flowable :=
  pdf.content.foldl (fun acc e => Element.generate fs e acc) []

/-! ### Text-level preprocessing (`yaml.py`: `load_variables`,
`has_variables`, `check_yaml_syntax`) on the raw spec text, modelled as
`List Char`. -/

/-- A regex word character. Python `\w` further covers non-ASCII letters;
the claims are insensitive to the exact class (for the malformed-placeholder
pattern the mid-pattern anchor decides everything, and for `<word>` tokens
the same class is used on both sides of each statement). -/
def isWordChar (c : Char) : Bool := c.isAlphanum || c = '_'

/-- Length of the maximal word-character run at the head of the list (the
greedy `\w+` repetition). -/
def wordRunLen : List Char → Nat
  | [] => 0
  | c :: cs => if isWordChar c then wordRunLen cs + 1 else 0

/-- Regex match of `<\w+>` at the head of the list: the greedy run must be
non-empty and be followed by `>` (backtracking cannot stop the run earlier,
since a shorter run would have to be followed by a word character, never
`>`). Returns the matched token. -/
def matchVar (s : List Char) : Option (List Char) :=
  match s with
  | [] => none
  | c :: rest =>
      if c = '<' then
        if 1 ≤ wordRunLen rest then
          match rest.drop (wordRunLen rest) with
          | c2 :: _ =>
              if c2 = '>'
              then some ('<' :: (rest.take (wordRunLen rest) ++ ['>']))
              else none
          | [] => none
        else none
      else none

/-- The scan loop of `re.findall(r"<\w+>", s)`: left to right, collecting
non-overlapping matches, resuming right after each match. The fuel argument
only bounds the recursion; `s.length` steps always suffice. -/
def findAllVarsAux : Nat → List Char → List (List Char)
  | 0, _ => []
  | _ + 1, [] => []
  | fuel + 1, c :: cs =>
      match matchVar (c :: cs) with
      | some tok => tok :: findAllVarsAux fuel ((c :: cs).drop tok.length)
      | none => findAllVarsAux fuel cs

/-- `re.findall(r"<\w+>", s)`: the matched tokens, leftmost first. -/
def findAllVars (s : List Char) : List (List Char) :=
  findAllVarsAux s.length s

/-- The warning for a supplied binding whose name was never found:
`logging.warning("Variable not found in yaml file", name)`. -/
def varNotFoundWarning (name : List Char) : LogEvent :=
  { severity := Severity.warning, message := "Variable not found in yaml file",
    offending := some (Yaml.str (String.mk name)) }

/-- The warning for a `<word>` token remaining after substitution:
`logging.warning("Variable was not overridden", match)`. -/
def varNotOverriddenWarning (tok : List Char) : LogEvent :=
  { severity := Severity.warning, message := "Variable was not overridden",
    offending := some (Yaml.str (String.mk tok)) }

/-- `re.sub(f"<\x7bname\x7d>", value, s)`: replace every non-overlapping
occurrence of the token `<name>` left to right. (For names made of word
characters the pattern is a regex literal.) -/
def substVar (name value : List Char) : List Char → List Char
  | [] => []
  | c :: cs =>
      if List.isPrefixOf ('<' :: (name ++ ['>'])) (c :: cs) then
        value ++ substVar name value ((c :: cs).drop (name.length + 2))
      else
        c :: substVar name value cs
termination_by s => s.length
decreasing_by
  · simp only [List.length_drop, List.length_cons]
    omega
  · simp

/-- The substitution loop of `load_variables`: one `re.sub` per binding in
order, warning when the text came back unchanged. -/
def loadVarsLoop (vars : List (List Char × List Char)) (s : List Char)
    (ws : List LogEvent) : List Char × List LogEvent :=
  match vars with
  | [] => (s, ws)
  | (name, value) :: rest =>
      let s2 := substVar name value s
      loadVarsLoop rest s2 (if s2 = s then ws ++ [varNotFoundWarning name] else ws)

/-- `has_variables(string)`: on a falsy (empty) argument the function falls
back to the loaded raw text `init.yaml_raw` (`stateRaw`); returns
`re.findall(r"<\w+>", ...)`. -/
def has_variables (stateRaw s : List Char) : List (List Char) :=
  findAllVars (if s = [] then stateRaw else s)

/-- `load_variables(variables)` on a loaded raw text `raw`: substitute each
binding in order (warning when nothing changed), then warn once per `<word>`
token still present. Returns the substituted text and the events logged; the
Python function finally hands the text to `yaml.safe_load`, which is outside
these claims (they concern the text before structural decoding). -/
def load_variables (raw : List Char) (vars : List (List Char × List Char)) :
    List Char × List LogEvent :=
  let (s, ws) := loadVarsLoop vars raw []
  (s, ws ++ (has_variables raw s).map varNotOverriddenWarning)

/-- Python `re` `^` outside MULTILINE mode: an anchor that matches only at
position 0 of the string (it consumes nothing). -/
def caretAnchorHolds (pos : Nat) : Bool := pos == 0

/-- `k` word characters starting at position `i` (a candidate `\w+`
repetition of the pattern, of length `k`). -/
def wordRunAt (s : List Char) (i k : Nat) : Bool :=
  ((s.drop i).take k).length == k && ((s.drop i).take k).all isWordChar

/-- A match of the `check_yaml_syntax` pattern `<\w+^>` starting at position
`i` of `s`: a `<`, then some non-empty word run of length `k` (backtracking
tries every `k`), then the `^` anchor must hold at the current position
`i + 1 + k`, then a `>`. -/
def badPatMatchAt (s : List Char) (i : Nat) : Bool :=
  (s[i]? == some '<') &&
    (List.range (s.length + 1)).any (fun k =>
      decide (1 ≤ k) && wordRunAt s (i + 1) k && caretAnchorHolds (i + 1 + k) &&
        (s[i + 1 + k]? == some '>'))

/-- The start positions at which `re.findall(r"<\w+^>", s)` could match.
`findall` keeps the leftmost non-overlapping matches, a subset of these
positions; the claims only need whether any match exists at all. -/
def checkSyntaxMatches (s : List Char) : List Nat :=
  (List.range s.length).filter (fun i => badPatMatchAt s i)

/-- The warning logged per `findall` hit of `check_yaml_syntax`. -/
def syntaxErrorWarning : LogEvent :=
  { severity := Severity.warning, message := "Syntax error in variable" }

/-- The event logged when `findall` found nothing:
`logging.info("Yaml variable syntax is correct")`. -/
def syntaxOkInfo : LogEvent :=
  { severity := Severity.info, message := "Yaml variable syntax is correct" }

/-- `check_yaml_syntax()` on a loaded raw text: one warning per `findall`
hit of the pattern `<\w+^>`, or the single info event when there is none. -/
def check_yaml_syntax (raw : List Char) : List LogEvent :=
  match checkSyntaxMatches raw with
  | [] => [syntaxOkInfo]
  | ms => ms.map (fun _ => syntaxErrorWarning)

/-- Modelled from the spec: the malformed-placeholder shape the syntax
checker is described to detect — an opening `<`, one or more word
characters, a stray trailing marker (the literal `^` character written in
the pattern) before the closing `>` — occurring at position `i`. -/
def specMalformedAt (s : List Char) (i : Nat) : Bool :=
  (s[i]? == some '<') &&
    (List.range (s.length + 1)).any (fun k =>
      decide (1 ≤ k) && wordRunAt s (i + 1) k && (s[i + 1 + k]? == some '^') &&
        (s[i + 2 + k]? == some '>'))

/-! ### Helper lemmas -/

theorem except_bind_ok {α β : Type} {x : Except String α} {f : α → Except String β}
    {b : β} (h : x >>= f = Except.ok b) : ∃ a, x = Except.ok a ∧ f a = Except.ok b := by
  cases x with
  | ok a => exact ⟨a, rfl, h⟩
  | error e => exact absurd h (by simp [Bind.bind, Except.bind])

theorem isSome_false_eq_none {α : Type} {o : Option α} (h : o.isSome = false) : o = none := by
  cases o with
  | none => rfl
  | some a => simp at h

/-! ### Claim theorems -/

/-- C4: for every Paragraph, whatever fields are supplied at construction
(including an explicit `space_before`) and via whatever path (direct
construction or YAML field mapping), after construction `space_before`
equals `size // 3`; a supplied `space_before` never survives construction. -/
theorem paragraph_space_before_invariant :
    (∀ parent sb sa alignment size text,
      (Paragraph.make parent sb sa alignment size text).space_before = Int.fdiv size 3)
    ∧ (∀ y p, Paragraph.from_yaml y = Except.ok p →
        p.space_before = Int.fdiv p.size 3) := by
  constructor
  · intro parent sb sa alignment size text
    rfl
  · intro y p h
    cases y with
    | dict kvs =>
        unfold Paragraph.from_yaml at h
        obtain ⟨par, _, h⟩ := except_bind_ok h
        obtain ⟨sb, _, h⟩ := except_bind_ok h
        obtain ⟨sa, _, h⟩ := except_bind_ok h
        obtain ⟨al, _, h⟩ := except_bind_ok h
        obtain ⟨sz, _, h⟩ := except_bind_ok h
        obtain ⟨tx, _, h⟩ := except_bind_ok h
        injection h with h
        subst h
        rfl
    | null => exact absurd h (by simp [Paragraph.from_yaml])
    | bool b => exact absurd h (by simp [Paragraph.from_yaml])
    | int n => exact absurd h (by simp [Paragraph.from_yaml])
    | str s => exact absurd h (by simp [Paragraph.from_yaml])
    | list l => exact absurd h (by simp [Paragraph.from_yaml])

/-- Witness for C4: a YAML mapping explicitly supplying `space_before: 99`
and `size: 12` still yields `space_before = 12 // 3 = 4`. -/
theorem paragraph_space_before_invariant_witness :
    (Paragraph.from_yaml
        (Yaml.dict [("space_before", Yaml.int 99), ("size", Yaml.int 12)])).map
      Paragraph.space_before = Except.ok (Int.fdiv 12 3) := by
  have h := paragraph_space_before_invariant.2
    (Yaml.dict [("space_before", Yaml.int 99), ("size", Yaml.int 12)])
    { parent := Parent.unset, space_before := 4, space_after := 4,
      alignment := "left", size := 12, text := "" } rfl
  exact congrArg Except.ok h

/-- C3: `Renderable.render` appends, when the element's parent back-reference
is the top-level document, a leading `Spacer(0, space_before)`, the generated
output, and a trailing `Spacer(0, space_after)`; otherwise it appends the
generated output alone, with no surrounding spacing directives. -/
theorem renderable_render_spacing :
    ∀ (fs : FontState) (e : Element) (flow : List Flowable),
      Renderable.render fs e flow =
        flow ++ (if e.parent = Parent.pdfDoc
          then Flowable.spacer 0 e.space_before ::
                (Element.genItems fs e ++ [Flowable.spacer 0 e.space_after])
          else Element.genItems fs e) := by
  intro fs e flow
  unfold Renderable.render Element.generate
  split
  · rename_i hp
    simp [hp]
  · rename_i hp
    simp [hp]

/-- C2: when the root mapping lacks the key `pdf` (or stores `null` under
it), `PDF.from_yaml` returns no document (`None`), emits exactly one
error-severity event about the missing root element, and produces no
partial document. -/
theorem from_yaml_missing_root (kvs : List (String × Yaml))
    (h : getOpt kvs "pdf" = none) :
    PDF.from_yaml (Yaml.dict kvs) = Except.ok (none, [rootMissingError])
    ∧ rootMissingError.severity = Severity.error := by
  constructor
  · simp [PDF.from_yaml, h]
  · rfl

/-- Witness for C2: the empty root mapping. -/
theorem from_yaml_missing_root_witness :
    PDF.from_yaml (Yaml.dict []) = Except.ok (none, [rootMissingError])
    ∧ rootMissingError.severity = Severity.error :=
  from_yaml_missing_root [] rfl

/-- C8: `size_tuple` returns the fixed reportlab pair for the size strings
`A4`, `A3`, `A2`, and the invalid sentinel pair `(-1, -1)` for every other
size string, without throwing (the function is total). -/
theorem sheet_size_tuple_lookup :
    (∀ m f, Sheet.size_tuple { margin := m, size := "A4", font := f } = a4Pair)
    ∧ (∀ m f, Sheet.size_tuple { margin := m, size := "A3", font := f } = a3Pair)
    ∧ (∀ m f, Sheet.size_tuple { margin := m, size := "A2", font := f } = a2Pair)
    ∧ (∀ sh : Sheet, sh.size ≠ "A4" → sh.size ≠ "A3" → sh.size ≠ "A2" →
        Sheet.size_tuple sh = (-1, -1)) := by
  refine ⟨fun m f => rfl, fun m f => rfl, fun m f => rfl, ?_⟩
  intro sh h4 h3 h2
  unfold Sheet.size_tuple sheetSizeEnum
  have e4 : (("A4" : String) == sh.size) = false := by
    simp [beq_iff_eq]; exact fun hh => h4 hh.symm
  have e3 : (("A3" : String) == sh.size) = false := by
    simp [beq_iff_eq]; exact fun hh => h3 hh.symm
  have e2 : (("A2" : String) == sh.size) = false := by
    simp [beq_iff_eq]; exact fun hh => h2 hh.symm
  simp [List.find?, e4, e3, e2]

/-- Witness for C8: an unrecognized size string maps to the sentinel. -/
theorem sheet_size_tuple_lookup_witness :
    Sheet.size_tuple { margin := {}, size := "Letter", font := "Times-Roman" } = (-1, -1) :=
  sheet_size_tuple_lookup.2.2.2
    { margin := {}, size := "Letter", font := "Times-Roman" }
    (by decide) (by decide) (by decide)

/-- C6: deserializing a `Table` from
`rows: [ \x7b row: [ \x7b cell: \x7b text: a \x7d \x7d, \x7b cell: \x7b text: b \x7d \x7d ] \x7d ]`
yields exactly one row holding exactly two `Cell` occupants with texts `a`
then `b` in order, both carrying the default background sentinel
`0xFFFFFF` (all remaining fields at their dataclass defaults). -/
theorem table_from_yaml_roundtrip :
    Table.from_yaml (Yaml.dict [("rows", Yaml.list
        [Yaml.dict [("row", Yaml.list
          [Yaml.dict [("cell", Yaml.dict [("text", Yaml.str "a")])],
           Yaml.dict [("cell", Yaml.dict [("text", Yaml.str "b")])]])]])])
      = Except.ok
        { parent := Parent.unset, space_before := 4, space_after := 4,
          border := false, header := false, grid := false,
          rows := [[Sum.inl { text := "a", background_color := "0xFFFFFF",
                              parent := Parent.table },
                    Sum.inl { text := "b", background_color := "0xFFFFFF",
                              parent := Parent.table }]] } := by
  rfl

theorem foldl_generate_eq_flatten (fs : FontState) (l0 : List Flowable)
    (es : List Element) :
    es.foldl (fun acc e => Element.generate fs e acc) l0
      = l0 ++ (es.map (Element.genItems fs)).flatten := by
  induction es generalizing l0 with
  | nil => simp
  | cons e es ih =>
      rw [List.foldl_cons, ih]
      simp [Element.generate, List.append_assoc]

theorem genItems_not_spacer (fs : FontState) (e : Element) :
    ∀ f ∈ Element.genItems fs e, f.isSpacer = false := by
  intro f hf
  cases e with
  | paragraph p =>
      simp [Element.genItems, Paragraph.genItems] at hf
      subst hf; rfl
  | table t =>
      simp [Element.genItems, Table.genItems] at hf
      subst hf; rfl
  | image i =>
      simp [Element.genItems, Image.genItems] at hf
      subst hf; rfl
  | pageBreak b =>
      simp [Element.genItems, PageBreak.genItems] at hf
      subst hf; rfl

/-- C10: the renderer entry point builds its flow by calling each content
element's `generate` directly (never the `render` wrapper), so the flow is
exactly the concatenation of the generated items in document order, contains
no spacing directives regardless of the elements' parents or
`space_before`/`space_after` values, and the sheet-font propagation pass of
`PDF.render` is never applied on this path (the flow is independent of the
sheet font and uses the ambient class-variable fonts unchanged). -/
theorem renderer_bypasses_render :
    ∀ (fs : FontState) (pdf : PDF),
      rendererBuildFlow fs pdf = (pdf.content.map (Element.genItems fs)).flatten
      ∧ (∀ f ∈ rendererBuildFlow fs pdf, f.isSpacer = false)
      ∧ (∀ g, rendererBuildFlow fs { pdf with sheet := { pdf.sheet with font := g } }
            = rendererBuildFlow fs pdf) := by
  intro fs pdf
  refine ⟨?_, ?_, fun g => rfl⟩
  · exact foldl_generate_eq_flatten fs [] pdf.content
  · intro f hf
    unfold rendererBuildFlow at hf
    rw [foldl_generate_eq_flatten fs [] pdf.content] at hf
    simp only [List.nil_append, List.mem_flatten, List.mem_map] at hf
    obtain ⟨l, ⟨e, _, hl⟩, hfl⟩ := hf
    exact genItems_not_spacer fs e f (hl ▸ hfl)

theorem badPatMatchAt_false (s : List Char) (i : Nat) : badPatMatchAt s i = false := by
  by_contra hcon
  rw [Bool.not_eq_false] at hcon
  simp only [badPatMatchAt, Bool.and_eq_true, List.any_eq_true] at hcon
  obtain ⟨-, k, -, hk⟩ := hcon
  simp only [caretAnchorHolds, Bool.and_eq_true, beq_iff_eq, decide_eq_true_eq] at hk
  omega

theorem checkSyntaxMatches_nil (s : List Char) : checkSyntaxMatches s = [] := by
  unfold checkSyntaxMatches
  simp [badPatMatchAt_false]

/-- C5 evidence (code bug): `check_yaml_syntax` can never emit a warning.
The pattern `<\w+^>` carries a start-of-string anchor `^` in mid-pattern;
after consuming `<` and at least one word character the position is at
least 2, so the anchor never holds and `re.findall` always returns the
empty list. Every input — including `<abc^>`, which literally exhibits the
malformed shape the spec describes (opening `<`, word characters, the stray
trailing marker before `>`) — produces only the single
`Yaml variable syntax is correct` info event and no warning, contradicting
the claimed one-warning-per-occurrence behavior. -/
theorem check_yaml_syntax_never_warns :
    (∀ raw, check_yaml_syntax raw = [syntaxOkInfo])
    ∧ specMalformedAt ("<abc^>".toList) 0 = true
    ∧ check_yaml_syntax ("<abc^>".toList) = [syntaxOkInfo]
    ∧ syntaxOkInfo.severity ≠ Severity.warning := by
  have hall : ∀ raw, check_yaml_syntax raw = [syntaxOkInfo] := by
    intro raw
    unfold check_yaml_syntax
    rw [checkSyntaxMatches_nil]
  exact ⟨hall, by decide, hall _, by decide⟩

theorem findAllVars_nil : findAllVars [] = [] := rfl

theorem wordRunLen_le (s : List Char) : wordRunLen s ≤ s.length := by
  induction s with
  | nil => simp [wordRunLen]
  | cons x xs ih =>
      rw [wordRunLen]
      split
      · simpa using ih
      · simp

theorem wordRun_take_all : ∀ s : List Char, ∀ c ∈ s.take (wordRunLen s), isWordChar c := by
  intro s
  induction s with
  | nil => simp
  | cons x xs ih =>
      by_cases hx : isWordChar x
      · rw [wordRunLen, if_pos hx, List.take_succ_cons]
        intro c hc
        rcases List.mem_cons.mp hc with rfl | hc
        · exact hx
        · exact ih c hc
      · rw [wordRunLen, if_neg hx]
        simp

theorem wordRunLen_all_append {w : List Char} (hw : ∀ c ∈ w, isWordChar c)
    {x : Char} (hx : isWordChar x = false) (b : List Char) :
    wordRunLen (w ++ x :: b) = w.length := by
  induction w with
  | nil => simp [wordRunLen, hx]
  | cons c cs ih =>
      rw [List.cons_append, wordRunLen, if_pos (hw c (List.mem_cons_self c cs)),
        ih (fun d hd => hw d (List.mem_cons_of_mem c hd))]
      simp

theorem matchVar_some_decomp {s tok : List Char} (h : matchVar s = some tok) :
    ∃ w aft, w ≠ [] ∧ (∀ c ∈ w, isWordChar c) ∧ tok = '<' :: (w ++ ['>'])
      ∧ s = '<' :: (w ++ '>' :: aft) ∧ s.drop tok.length = aft := by
  unfold matchVar at h
  split at h
  · exact absurd h (by simp)
  · rename_i c rest
    split at h
    · rename_i hc
      subst hc
      split at h
      · rename_i hm
        split at h
        · rename_i c2 aft0 hdrop
          split at h
          · rename_i hc2
            subst hc2
            injection h with h
            subst h
            have hmle : wordRunLen rest ≤ rest.length := wordRunLen_le rest
            have hwlen : (rest.take (wordRunLen rest)).length = wordRunLen rest := by
              simp [List.length_take, Nat.min_eq_left hmle]
            refine ⟨rest.take (wordRunLen rest), aft0, ?_, wordRun_take_all rest, rfl, ?_, ?_⟩
            · intro hnil
              rw [hnil] at hwlen
              simp at hwlen
              omega
            · congr 1
              conv_lhs => rw [← List.take_append_drop (wordRunLen rest) rest]
              rw [hdrop]
            · have hres : rest = rest.take (wordRunLen rest) ++ '>' :: aft0 := by
                conv_lhs => rw [← List.take_append_drop (wordRunLen rest) rest]
                rw [hdrop]
              have htok : ('<' :: (rest.take (wordRunLen rest) ++ ['>'])).length
                  = wordRunLen rest + 2 := by
                simp [hwlen]
              rw [htok, List.drop_succ_cons]
              calc List.drop (wordRunLen rest + 1) rest
                  = List.drop (wordRunLen rest + 1)
                      (rest.take (wordRunLen rest) ++ '>' :: aft0) := by rw [← hres]
                _ = aft0 := by
                    rw [show rest.take (wordRunLen rest) ++ '>' :: aft0
                          = (rest.take (wordRunLen rest) ++ ['>']) ++ aft0 by simp]
                    rw [show wordRunLen rest + 1
                          = (rest.take (wordRunLen rest) ++ ['>']).length by simp [hwlen]]
                    exact List.drop_left _ _
          · exact absurd h (by simp)
        · exact absurd h (by simp)
      · exact absurd h (by simp)
    · exact absurd h (by simp)

theorem matchVar_tok_pos {s tok : List Char} (h : matchVar s = some tok) :
    1 ≤ tok.length := by
  obtain ⟨w, aft, -, -, htok, -, -⟩ := matchVar_some_decomp h
  rw [htok]
  simp

theorem matchVar_at_token (w after : List Char) (hw1 : w ≠ [])
    (hw : ∀ c ∈ w, isWordChar c) :
    matchVar ('<' :: (w ++ '>' :: after)) = some ('<' :: (w ++ ['>'])) := by
  have hlen : wordRunLen (w ++ '>' :: after) = w.length :=
    wordRunLen_all_append hw (by decide) after
  have hpos : 1 ≤ w.length := List.length_pos.mpr hw1
  simp [matchVar, hlen, hpos, List.drop_left, List.take_left]

theorem findAllVarsAux_fuel :
    ∀ fuel (s : List Char), s.length ≤ fuel →
      findAllVarsAux fuel s = findAllVarsAux s.length s := by
  intro fuel
  induction fuel using Nat.strong_induction_on with
  | _ fuel ih =>
      intro s hs
      cases fuel with
      | zero =>
          have hnil : s = [] := List.length_eq_zero.mp (Nat.le_zero.mp hs)
          subst hnil
          rfl
      | succ f =>
          cases s with
          | nil => rfl
          | cons c cs =>
              have hcs : cs.length ≤ f := by
                simp only [List.length_cons] at hs
                omega
              cases hm : matchVar (c :: cs) with
              | some tok =>
                  have hdl : ((c :: cs).drop tok.length).length ≤ cs.length := by
                    have := matchVar_tok_pos hm
                    simp only [List.length_drop, List.length_cons]
                    omega
                  simp only [List.length_cons, findAllVarsAux, hm]
                  rw [ih f (by omega) _ (le_trans hdl hcs),
                    ih cs.length (by omega) _ hdl]
              | none =>
                  simp only [List.length_cons, findAllVarsAux, hm]
                  exact ih f (by omega) cs hcs

theorem findAllVars_cons (c : Char) (cs : List Char) :
    findAllVars (c :: cs) =
      match matchVar (c :: cs) with
      | some tok => tok :: findAllVars ((c :: cs).drop tok.length)
      | none => findAllVars cs := by
  cases hm : matchVar (c :: cs) with
  | some tok =>
      have hdl : ((c :: cs).drop tok.length).length ≤ cs.length := by
        have := matchVar_tok_pos hm
        simp only [List.length_drop, List.length_cons]
        omega
      unfold findAllVars
      simp only [List.length_cons, findAllVarsAux, hm]
      rw [findAllVarsAux_fuel cs.length _ hdl]
  | none =>
      unfold findAllVars
      simp only [List.length_cons, findAllVarsAux, hm]

theorem findAllVars_decomp_ne (w b : List Char) (hw1 : w ≠ [])
    (hw : ∀ c ∈ w, isWordChar c) :
    ∀ a, findAllVars (a ++ '<' :: (w ++ '>' :: b)) ≠ [] := by
  intro a
  induction a with
  | nil =>
      rw [List.nil_append, findAllVars_cons, matchVar_at_token w b hw1 hw]
      simp
  | cons c a2 ih =>
      rw [List.cons_append, findAllVars_cons]
      cases hm : matchVar (c :: (a2 ++ '<' :: (w ++ '>' :: b))) with
      | some tok => simp
      | none => simpa using ih

theorem findAllVars_ne_imp_decomp :
    ∀ n (s : List Char), s.length ≤ n → findAllVars s ≠ [] →
      ∃ a w b, s = a ++ '<' :: (w ++ '>' :: b) ∧ w ≠ [] ∧ ∀ c ∈ w, isWordChar c := by
  intro n
  induction n with
  | zero =>
      intro s hs h
      rw [List.length_eq_zero.mp (Nat.le_zero.mp hs), findAllVars_nil] at h
      exact absurd rfl h
  | succ m ih =>
      intro s hs h
      cases s with
      | nil => rw [findAllVars_nil] at h; exact absurd rfl h
      | cons c cs =>
          cases hm : matchVar (c :: cs) with
          | some tok =>
              obtain ⟨w, aft, hw1, hw, -, heq, -⟩ := matchVar_some_decomp hm
              exact ⟨[], w, aft, by simpa using heq, hw1, hw⟩
          | none =>
              rw [findAllVars_cons, hm] at h
              have hlen : cs.length ≤ m := by
                simp only [List.length_cons] at hs
                omega
              obtain ⟨a, w, b, heq, hw1, hw⟩ := ih cs hlen h
              exact ⟨c :: a, w, b, by rw [heq, List.cons_append], hw1, hw⟩

theorem findAllVars_ne_nil_iff (s : List Char) :
    findAllVars s ≠ [] ↔
      ∃ a w b, s = a ++ '<' :: (w ++ '>' :: b) ∧ w ≠ [] ∧ ∀ c ∈ w, isWordChar c := by
  constructor
  · exact findAllVars_ne_imp_decomp s.length s le_rfl
  · rintro ⟨a, w, b, rfl, hw1, hw⟩
    exact findAllVars_decomp_ne w b hw1 hw a

/-- C7: with an empty bindings mapping, substitution leaves the text
unchanged (identity on the text before structural decoding); the
leftover-placeholder warnings are exactly one per remaining `<word>` token
(the `re.findall` matches, in order), and such a warning is emitted if and
only if the text actually contains a `<word>` token — a `<`, one or more
word characters, then `>` — the tokens themselves being left intact in the
returned text. -/
theorem load_variables_empty_bindings :
    ∀ raw : List Char,
      (load_variables raw []).1 = raw
      ∧ (load_variables raw []).2 = (findAllVars raw).map varNotOverriddenWarning
      ∧ ((load_variables raw []).2 ≠ [] ↔
          ∃ a w b, raw = a ++ '<' :: (w ++ '>' :: b) ∧ w ≠ [] ∧ ∀ c ∈ w, isWordChar c) := by
  intro raw
  have h1 : load_variables raw [] = (raw, (findAllVars raw).map varNotOverriddenWarning) := by
    simp [load_variables, loadVarsLoop, has_variables, ite_self]
  refine ⟨by rw [h1], by rw [h1], ?_⟩
  rw [h1]
  simp only [ne_eq, List.map_eq_nil_iff]
  exact findAllVars_ne_nil_iff raw

/-! ### The content dispatch loop (claims C1 and C9) -/

/-- A content entry carrying a recognized discriminator: a mapping with a
non-null `paragraph`, `table` or `image` value, or with a `page_break` key
present at all (`__getitem__` sees a stored `null` too). -/
def isRecognizedEntry (d : Yaml) : Bool :=
  match d with
  | Yaml.dict kvs =>
      (getOpt kvs Paragraph.key).isSome || (getOpt kvs Table.key).isSome
        || (getOpt kvs Image.key).isSome || hasKey kvs PageBreak.key
  | _ => false

theorem contentStep_recognized_length {d : Yaml} {o : List Element × List LogEvent}
    (h : contentStep d = Except.ok o) (hr : isRecognizedEntry d = true) :
    o.1.length = 1 := by
  cases d with
  | dict kvs =>
      simp only [contentStep] at h
      simp only [isRecognizedEntry] at hr
      cases hp : getOpt kvs Paragraph.key with
      | some v =>
          simp only [hp] at h
          cases hfy : Paragraph.from_yaml v with
          | ok p => simp only [hfy, Except.ok.injEq] at h; subst h; rfl
          | error e => simp [hfy] at h
      | none =>
          simp only [hp] at h
          cases ht : getOpt kvs Table.key with
          | some v =>
              simp only [ht] at h
              cases hfy : Table.from_yaml v with
              | ok t => simp only [hfy, Except.ok.injEq] at h; subst h; rfl
              | error e => simp [hfy] at h
          | none =>
              simp only [ht] at h
              cases hi : getOpt kvs Image.key with
              | some v =>
                  simp only [hi] at h
                  cases hfy : Image.from_yaml v with
                  | ok i => simp only [hfy, Except.ok.injEq] at h; subst h; rfl
                  | error e => simp [hfy] at h
              | none =>
                  simp only [hi] at h
                  rw [hp, ht, hi] at hr
                  simp only [Option.isSome_none, Bool.false_or] at hr
                  rw [hr, if_pos rfl] at h
                  simp only [Except.ok.injEq] at h
                  subst h
                  rfl
  | null => exact absurd hr (by simp [isRecognizedEntry])
  | bool b => exact absurd hr (by simp [isRecognizedEntry])
  | int n => exact absurd hr (by simp [isRecognizedEntry])
  | str s => exact absurd hr (by simp [isRecognizedEntry])
  | list l => exact absurd hr (by simp [isRecognizedEntry])

theorem contentStep_unrecognized {d : Yaml} {o : List Element × List LogEvent}
    (h : contentStep d = Except.ok o) (hr : isRecognizedEntry d = false) :
    o = ([], [invalidElementWarning d]) := by
  cases d with
  | dict kvs =>
      simp only [contentStep] at h
      simp only [isRecognizedEntry, Bool.or_eq_false_iff] at hr
      obtain ⟨⟨⟨hp, ht⟩, hi⟩, hpb⟩ := hr
      simp only [isSome_false_eq_none hp, isSome_false_eq_none ht, isSome_false_eq_none hi,
        hpb, Bool.false_eq_true, if_false, Except.ok.injEq] at h
      exact h.symm
  | null => simp [contentStep] at h
  | bool b => simp [contentStep] at h
  | int n => simp [contentStep] at h
  | str s => simp [contentStep] at h
  | list l => simp [contentStep] at h

theorem processContent_spec {entries : List Yaml} {els : List Element}
    {ws : List LogEvent} (h : processContent entries = Except.ok (els, ws)) :
    ∃ outs : List (List Element × List LogEvent),
      List.Forall₂ (fun d o => contentStep d = Except.ok o) entries outs
      ∧ els = (outs.map Prod.fst).flatten
      ∧ ws = (outs.map Prod.snd).flatten := by
  induction entries generalizing els ws with
  | nil =>
      unfold processContent at h
      injection h with h
      injection h with h1 h2
      exact ⟨[], List.Forall₂.nil, by simp [← h1], by simp [← h2]⟩
  | cons d ds ih =>
      unfold processContent at h
      cases hs : contentStep d with
      | ok o =>
          rw [hs] at h
          cases hr : processContent ds with
          | ok r =>
              rw [hr] at h
              injection h with h
              injection h with h1 h2
              have hr2 : processContent ds = Except.ok (r.1, r.2) := by rw [hr]
              obtain ⟨outs, hall, hels, hws⟩ := ih hr2
              refine ⟨o :: outs, List.Forall₂.cons hs hall, ?_, ?_⟩
              · rw [← h1, hels]
                simp
              · rw [← h2, hws]
                simp
          | error e => rw [hr] at h; exact absurd h (by simp)
      | error e => rw [hs] at h; exact absurd h (by simp)

theorem rootFold_append (l1 l2 : List (String × Yaml)) (acc : PDF) (evs : List LogEvent) :
    rootFold (l1 ++ l2) acc evs =
      match rootFold l1 acc evs with
      | Except.ok pr => rootFold l2 pr.1 pr.2
      | Except.error e => Except.error e := by
  induction l1 generalizing acc evs with
  | nil => simp [rootFold]
  | cons kv rest ih =>
      obtain ⟨k, v⟩ := kv
      rw [List.cons_append]
      simp only [rootFold]
      cases hrs : rootStep acc evs k v with
      | ok pr => exact ih pr.1 pr.2
      | error e => rfl

theorem rootStep_no_content {acc : PDF} {evs : List LogEvent} {k : String} {v : Yaml}
    {pr : PDF × List LogEvent} (hk : k ≠ "content")
    (h : rootStep acc evs k v = Except.ok pr) :
    pr.1.content = acc.content ∧ pr.2 = evs := by
  unfold rootStep at h
  by_cases hs : k = "sheet"
  · rw [if_pos hs] at h
    cases hsf : Sheet.from_yaml v with
    | ok s =>
        rw [hsf] at h
        injection h with h
        rw [← h]
        exact ⟨rfl, rfl⟩
    | error e => rw [hsf] at h; exact absurd h (by simp)
  · rw [if_neg hs, if_neg hk] at h
    injection h with h
    rw [← h]
    exact ⟨rfl, rfl⟩

theorem rootFold_no_content :
    ∀ (l : List (String × Yaml)) (acc : PDF) (evs : List LogEvent)
      (p : PDF) (evs2 : List LogEvent),
      (∀ kv ∈ l, kv.1 ≠ "content") →
      rootFold l acc evs = Except.ok (p, evs2) →
      p.content = acc.content ∧ evs2 = evs := by
  intro l
  induction l with
  | nil =>
      intro acc evs p evs2 hnc h
      simp only [rootFold, Except.ok.injEq, Prod.mk.injEq] at h
      exact ⟨by rw [← h.1], h.2.symm⟩
  | cons kv rest ih =>
      obtain ⟨k, v⟩ := kv
      intro acc evs p evs2 hnc h
      simp only [rootFold] at h
      cases hrs : rootStep acc evs k v with
      | ok pr =>
          rw [hrs] at h
          obtain ⟨hc1, he1⟩ := rootStep_no_content (hnc (k, v) (List.mem_cons_self _ _)) hrs
          obtain ⟨hc2, he2⟩ := ih pr.1 pr.2 p evs2
            (fun kv hkv => hnc kv (List.mem_cons_of_mem _ hkv)) h
          exact ⟨by rw [hc2, hc1], by rw [he2, he1]⟩
      | error e => rw [hrs] at h; exact absurd h (by simp)

/-- C1: for an input tree whose root mapping holds `pdf` with a `content`
list, a successful `PDF.from_yaml` yields a content sequence with exactly
one element per entry carrying a recognized discriminator, in input order
(the per-entry outputs concatenate to the content and the event log), and
every unrecognized entry contributes no element and exactly one
invalid-element warning while parsing continues. -/
theorem from_yaml_content_dispatch
    (kvs rkvs : List (String × Yaml)) (entries : List Yaml)
    (pdf : PDF) (evs : List LogEvent)
    (h1 : PDF.from_yaml (Yaml.dict kvs) = Except.ok (some pdf, evs))
    (h2 : getOpt kvs "pdf" = some (Yaml.dict rkvs))
    (h3 : (rkvs.map Prod.fst).Nodup)
    (h4 : ("content", Yaml.list entries) ∈ rkvs) :
    ∃ outs : List (List Element × List LogEvent),
      List.Forall₂ (fun d o => contentStep d = Except.ok o) entries outs
      ∧ pdf.content = (outs.map Prod.fst).flatten
      ∧ evs = (outs.map Prod.snd).flatten
      ∧ ∀ pr ∈ entries.zip outs,
          (isRecognizedEntry pr.1 = true → (pr.2.1).length = 1)
          ∧ (isRecognizedEntry pr.1 = false →
              pr.2 = ([], [invalidElementWarning pr.1])) := by
  simp only [PDF.from_yaml, h2] at h1
  cases hrf : rootFold rkvs {} [] with
  | error e => simp [hrf] at h1
  | ok prTop =>
      obtain ⟨pA, evsA⟩ := prTop
      rw [hrf] at h1
      have h1c : (Except.ok (some pA, evsA) :
          Except String (Option PDF × List LogEvent)) = Except.ok (some pdf, evs) := h1
      simp only [Except.ok.injEq, Prod.mk.injEq, Option.some.injEq] at h1c
      obtain ⟨hpd, hev⟩ := h1c
      subst hpd
      subst hev
      obtain ⟨pre, post, rfl⟩ := List.append_of_mem h4
      have hmap : (pre.map Prod.fst ++ "content" :: post.map Prod.fst).Nodup := by
        simpa using h3
      have hpre : ∀ kv ∈ pre, kv.1 ≠ "content" := by
        intro kv hkv hceq
        have hmm : "content" ∈ pre.map Prod.fst := by
          rw [← hceq]
          exact List.mem_map_of_mem Prod.fst hkv
        exact (List.nodup_append.mp hmap).2.2 hmm (List.mem_cons_self _ _)
      have hpost : ∀ kv ∈ post, kv.1 ≠ "content" := by
        intro kv hkv hceq
        have hnd2 : ("content" :: post.map Prod.fst).Nodup :=
          (List.nodup_append.mp hmap).2.1
        have hmm : "content" ∈ post.map Prod.fst := by
          rw [← hceq]
          exact List.mem_map_of_mem Prod.fst hkv
        exact (List.nodup_cons.mp hnd2).1 hmm
      rw [rootFold_append] at hrf
      cases hfp : rootFold pre {} [] with
      | error e => rw [hfp] at hrf; exact absurd hrf (by simp)
      | ok prA =>
          obtain ⟨accA, evsA2⟩ := prA
          rw [hfp] at hrf
          obtain ⟨hcontA, hevsA⟩ := rootFold_no_content pre {} [] accA evsA2 hpre hfp
          have hrf2 : rootFold (("content", Yaml.list entries) :: post) accA evsA2
              = Except.ok (pA, evsA) := hrf
          simp only [rootFold] at hrf2
          cases hpc : processContent entries with
          | error e =>
              have hstep : rootStep accA evsA2 "content" (Yaml.list entries)
                  = Except.error e := by
                simp [rootStep, hpc]
              rw [hstep] at hrf2
              exact absurd hrf2 (by simp)
          | ok prC =>
              obtain ⟨els, ws⟩ := prC
              have hstep : rootStep accA evsA2 "content" (Yaml.list entries)
                  = Except.ok ({ accA with content := accA.content ++ els }, evsA2 ++ ws) := by
                simp [rootStep, hpc]
              rw [hstep] at hrf2
              have hrf3 : rootFold post { accA with content := accA.content ++ els }
                  (evsA2 ++ ws) = Except.ok (pA, evsA) := hrf2
              obtain ⟨hcontB, hevsB⟩ :=
                rootFold_no_content post _ _ pA evsA hpost hrf3
              obtain ⟨outs, hall, hels, hws⟩ := processContent_spec hpc
              refine ⟨outs, hall, ?_, ?_, ?_⟩
              · rw [hcontB]
                simp only [hcontA]
                simpa using hels
              · rw [hevsB, hevsA]
                simpa using hws
              · intro p hp
                obtain ⟨d, o⟩ := p
                have hstep2 : contentStep d = Except.ok o :=
                  (List.forall₂_iff_zip.mp hall).2 hp
                exact ⟨fun hr => contentStep_recognized_length hstep2 hr,
                  fun hr => contentStep_unrecognized hstep2 hr⟩

/-- The concrete content list used to exhibit C1: a recognized paragraph
entry, an unrecognized entry, and a page-break entry. -/
def c1Entries : List Yaml :=
  [Yaml.dict [("paragraph", Yaml.dict [("text", Yaml.str "Hi")])],
   Yaml.dict [("bogus", Yaml.bool true)],
   Yaml.dict [("page_break", Yaml.null)]]

/-- The document `PDF.from_yaml` produces from `c1Entries`. -/
def c1Doc : PDF :=
  { sheet := {},
    content :=
      [Element.paragraph
        { parent := Parent.pdfDoc, space_before := 4, space_after := 4,
          alignment := "left", size := 12, text := "Hi" },
       Element.pageBreak
        { parent := Parent.unset, space_before := 4, space_after := 4 }] }

/-- The events `PDF.from_yaml` logs for `c1Entries`. -/
def c1Evs : List LogEvent :=
  [invalidElementWarning (Yaml.dict [("bogus", Yaml.bool true)]),
   invalidElementWarning (Yaml.dict [("page_break", Yaml.null)])]

/-- Witness for C1 at a concrete input (one recognized entry, one
unrecognized entry, one page-break entry). -/
theorem from_yaml_content_dispatch_witness :
    ∃ outs : List (List Element × List LogEvent),
      List.Forall₂ (fun d o => contentStep d = Except.ok o) c1Entries outs
      ∧ c1Doc.content = (outs.map Prod.fst).flatten
      ∧ c1Evs = (outs.map Prod.snd).flatten
      ∧ ∀ pr ∈ c1Entries.zip outs,
          (isRecognizedEntry pr.1 = true → (pr.2.1).length = 1)
          ∧ (isRecognizedEntry pr.1 = false →
              pr.2 = ([], [invalidElementWarning pr.1])) :=
  from_yaml_content_dispatch
    [("pdf", Yaml.dict [("content", Yaml.list c1Entries)])]
    [("content", Yaml.list c1Entries)] c1Entries c1Doc c1Evs
    rfl rfl (by simp) (List.mem_cons_self _ _)

/-- C9: a content entry that is a mapping carrying the `page_break` key (and
none of the earlier discriminators, which are tried first) gets a
`PageBreak` appended, but because that branch does not skip to the next
entry the loop also logs one `Invalid yaml element` warning for that same
entry, and the appended `PageBreak` keeps its unset (`None`) parent —
unlike `paragraph`, `table` and `image` entries, whose element gets
`parent` set to the document and which log no warning. -/
theorem pagebreak_entry_warning_and_parent :
    (∀ kvs, getOpt kvs Paragraph.key = none → getOpt kvs Table.key = none →
      getOpt kvs Image.key = none → hasKey kvs PageBreak.key = true →
      contentStep (Yaml.dict kvs) = Except.ok
        ([Element.pageBreak
            { parent := Parent.unset, space_before := 4, space_after := 4 }],
         [invalidElementWarning (Yaml.dict kvs)]))
    ∧ (∀ kvs v p, getOpt kvs Paragraph.key = some v →
      Paragraph.from_yaml v = Except.ok p →
      contentStep (Yaml.dict kvs) = Except.ok
        ([Element.paragraph { p with parent := Parent.pdfDoc }], []))
    ∧ (∀ kvs v t, getOpt kvs Paragraph.key = none → getOpt kvs Table.key = some v →
      Table.from_yaml v = Except.ok t →
      contentStep (Yaml.dict kvs) = Except.ok
        ([Element.table { t with parent := Parent.pdfDoc }], []))
    ∧ (∀ kvs v i, getOpt kvs Paragraph.key = none → getOpt kvs Table.key = none →
      getOpt kvs Image.key = some v → Image.from_yaml v = Except.ok i →
      contentStep (Yaml.dict kvs) = Except.ok
        ([Element.image { i with parent := Parent.pdfDoc }], [])) := by
  refine ⟨?_, ?_, ?_, ?_⟩
  · intro kvs hp ht hi hpb
    simp [contentStep, hp, ht, hi, hpb]
  · intro kvs v p hp hfy
    simp [contentStep, hp, hfy]
  · intro kvs v t hp ht hfy
    simp [contentStep, hp, ht, hfy]
  · intro kvs v i hp ht hi hfy
    simp [contentStep, hp, ht, hi, hfy]

/-- Witness for C9 at concrete single-key entries of each kind. -/
theorem pagebreak_entry_warning_and_parent_witness :
    contentStep (Yaml.dict [("page_break", Yaml.dict [])]) = Except.ok
      ([Element.pageBreak
          { parent := Parent.unset, space_before := 4, space_after := 4 }],
       [invalidElementWarning (Yaml.dict [("page_break", Yaml.dict [])])])
    ∧ contentStep (Yaml.dict [("paragraph", Yaml.dict [])]) = Except.ok
      ([Element.paragraph
          { parent := Parent.pdfDoc, space_before := 4, space_after := 4,
            alignment := "left", size := 12, text := "" }], [])
    ∧ contentStep (Yaml.dict [("table", Yaml.dict [("rows", Yaml.list [])])]) = Except.ok
      ([Element.table
          { parent := Parent.pdfDoc, space_before := 4, space_after := 4,
            border := false, header := false, grid := false, rows := [] }], [])
    ∧ contentStep (Yaml.dict [("image", Yaml.dict [])]) = Except.ok
      ([Element.image
          { parent := Parent.pdfDoc, space_before := 4, space_after := 4,
            resource := "", alignment := "left", width := 72, height := 72 }], []) :=
  ⟨pagebreak_entry_warning_and_parent.1 [("page_break", Yaml.dict [])] rfl rfl rfl rfl,
   pagebreak_entry_warning_and_parent.2.1 [("paragraph", Yaml.dict [])] (Yaml.dict [])
     { parent := Parent.unset, space_before := 4, space_after := 4,
       alignment := "left", size := 12, text := "" } rfl rfl,
   pagebreak_entry_warning_and_parent.2.2.1 [("table", Yaml.dict [("rows", Yaml.list [])])]
     (Yaml.dict [("rows", Yaml.list [])])
     { parent := Parent.unset, space_before := 4, space_after := 4,
       border := false, header := false, grid := false, rows := [] } rfl rfl rfl,
   pagebreak_entry_warning_and_parent.2.2.2 [("image", Yaml.dict [])] (Yaml.dict [])
     { parent := Parent.unset, space_before := 4, space_after := 4,
       resource := "", alignment := "left", width := 72, height := 72 } rfl rfl rfl rfl⟩

end Pdfgen
